import Mathlib

/-!
Verification of the fixtex BibTeX-fixing pipeline (src/fixtex.py).

The pure decision logic of the program is embedded shallowly:
dictionaries become association lists, Selenium result elements become a
`Candidate` structure carrying the extracted texts, and each external
effect (web search, generation call, citation fetch, record parse) is an
oracle input so that the per-entry control flow is a total function of
those inputs.  Python string primitives (strip, lower, split, join, in)
are embedded as structurally recursive functions on character lists.
-/

/-- A BibTeX entry: a mapping from field name to field value, embedded as
an association list (first binding wins, like a Python dict snapshot). -/
abbrev Entry := List (String × String)

/-- Field lookup, the embedding of Python `entry[k]` / `k in entry`. -/
def getField (e : Entry) (k : String) : Option String :=
  (e.find? (fun p => p.1 == k)).map (fun p => p.2)

/-- Field update, the embedding of Python `entry[k] = v`: the new binding
replaces any previous binding for `k`. -/
def setField (e : Entry) (k v : String) : Entry :=
  (k, v) :: e.filter (fun p => !(p.1 == k))

/-- Embedding of `entry.get('ID', 'unknown')` (fixtex.py line 490). -/
def getID (e : Entry) : String :=
  (getField e ("ID")).getD ("unknown")

/-- One Google Scholar search result, reduced to the three texts the
program extracts from it (fixtex.py lines 176-199). -/
structure Candidate where
  title : String
  info : String
  snippet : String
deriving DecidableEq, Repr

/-- Remove leading and trailing whitespace from a character list; the
embedding of Python `s.strip()`. -/
def trimChars (cs : List Char) : List Char :=
  ((cs.dropWhile Char.isWhitespace).reverse.dropWhile Char.isWhitespace).reverse

/-- Embedding of Python `s.strip()` at the string level. -/
def py_strip (s : String) : String :=
  ⟨trimChars s.data⟩

/-- Embedding of Python `s.lower()`, as a character list. -/
def py_lower (s : String) : List Char :=
  s.data.map Char.toLower

/-- Split a character list at every newline character; the embedding of
Python `s.split('\n')`.  Always returns at least one (possibly empty)
piece. -/
def splitNl : List Char → List (List Char)
  | [] => [[]]
  | c :: cs =>
    if c = ('\n') then [] :: splitNl cs
    else
      match splitNl cs with
      | [] => [[c]]
      | l :: ls => (c :: l) :: ls

/-- Embedding of Python `content.split('\n')` at the string level. -/
def py_split_lines (s : String) : List String :=
  (splitNl s.data).map (fun l => ⟨l⟩)

/-- Embedding of Python `'\n'.join(lines)`. -/
def joinNl : List String → String
  | [] => ""
  | [x] => x
  | x :: y :: xs => x ++ "\n" ++ joinNl (y :: xs)

/-- Embedding of Python `' '.join(parts)`. -/
def join_space : List String → String
  | [] => ""
  | [x] => x
  | x :: y :: xs => x ++ " " ++ join_space (y :: xs)

/-- The first piece of Python `l.split(sep)`: the characters before the
first occurrence of `sep`, or all of them when `sep` does not occur. -/
def firstSplit (sep : List Char) : List Char → List Char
  | [] => []
  | c :: cs =>
    if List.isPrefixOf sep (c :: cs) then []
    else c :: firstSplit sep cs

/-- Boolean substring test on character lists: some suffix of `l` starts
with `pat`.  Embedding of the Python `in` operator on strings. -/
def py_in (pat l : List Char) : Bool :=
  (List.range (l.length + 1)).any (fun i => List.isPrefixOf pat (l.drop i))

/-- A brace character, `{` or `}`. -/
def isBrace (c : Char) : Bool :=
  c == ('\x7b') || c == ('\x7d')

/-- Embedding of Python `s.strip('{}')`: remove every leading and every
trailing brace character (fixtex.py line 124). -/
def strip_braces (s : String) : String :=
  ⟨((s.data.dropWhile isBrace).reverse.dropWhile isBrace).reverse⟩

/-- Embedding of `ScholarScraper._build_query` (fixtex.py lines 120-136).
`none` models the Python `None` return. -/
def ScholarScraper.build_query (entry : Entry) : Option String :=
  match getField entry ("title") with
  | some t => some (strip_braces t)
  | none =>
    let parts : List String :=
      (match getField entry ("author") with
       | some a => [⟨firstSplit ((" and ").data) a.data⟩]
       | none => []) ++
      (match getField entry ("year") with
       | some y => [y]
       | none => [])
    if parts.isEmpty then none else some (join_space parts)

/-- A word character in the sense of the regex `\b` boundary (ASCII):
letter, digit or underscore. -/
def isWordChar (c : Char) : Bool :=
  c.isAlpha || c.isDigit || c == ('_')

/-- Decimal value of a digit run, the embedding of Python `int(...)` on a
string of digits. -/
def digitsToNat (run : List Char) : Nat :=
  run.foldl (fun n c => 10 * n + (c.toNat - 48)) 0

/-- One-pass embedding of the first match of `re.findall(r'\b(\d+)\b', content)`
(fixtex.py line 386).  The first argument says whether a match may start at
the current position (the left `\b` holds there); the second holds the
digits of the run currently being read, if any.  A run is returned once it
is followed by a non-word character or the end of the text; a run followed
by a letter or underscore is abandoned, as the trailing `\b` fails on it. -/
def scanNum : Bool → Option (List Char) → List Char → Option (List Char)
  | _, none, [] => none
  | _, some acc, [] => some acc
  | bnd, none, c :: cs =>
    if c.isDigit && bnd then scanNum false (some [c]) cs
    else scanNum (!isWordChar c) none cs
  | _, some acc, c :: cs =>
    if c.isDigit then scanNum false (some (acc ++ [c])) cs
    else if isWordChar c then scanNum false none cs
    else some acc

/-- Embedding of the response parsing inside `LLMReformatter.select_best_version`
(fixtex.py lines 381-391): strip the content, take the first
word-boundary-delimited digit run, convert it with `int`. -/
def LLMReformatter.parse_index (content : String) : Option Nat :=
  (scanNum true none (trimChars content.data)).map digitsToNat

/-- Embedding of `LLMReformatter.select_best_version` (fixtex.py lines 346-395).
The generation call is an oracle: `none` models a failed request (the
`except` branch), `some content` the returned message content. -/
def LLMReformatter.select_best_version (reply : Option String) : Option Nat :=
  match reply with
  | none => none
  | some content => LLMReformatter.parse_index content

/-- The digit run starting at position `i` (possibly empty). -/
def runAt (cs : List Char) (i : Nat) : List Char :=
  (cs.drop i).takeWhile Char.isDigit

/-- Whether position `i` holds a word character. Out-of-range positions
count as non-word, matching `\b` at the ends of the text. -/
def wordAt (cs : List Char) (i : Nat) : Bool :=
  match cs.get? i with
  | some c => isWordChar c
  | none => false

/-- Position `i` starts a match of `\b\d+\b`: a digit whose left neighbour
is absent or non-word (at position 0 the flag `bnd` decides) and whose
maximal digit run is followed by an absent or non-word character. -/
def matchStart (bnd : Bool) (cs : List Char) (i : Nat) : Bool :=
  (match cs.get? i with
   | some c => c.isDigit
   | none => false)
  && (if i = 0 then bnd else !wordAt cs (i - 1))
  && !wordAt cs (i + (runAt cs i).length)

/-- Index of the first match of `\b\d+\b`, stated positionally. -/
def regexFirstAux (bnd : Bool) (cs : List Char) : Option Nat :=
  (List.range cs.length).find? (matchStart bnd cs)

/-- The first word-boundary-delimited digit run of a text. -/
def regexFirstRun (cs : List Char) : Option (List Char) :=
  (regexFirstAux true cs).map (runAt cs)

/-- Follows the spec's words (claim C5): the first run of decimal digits
found anywhere in the text, with no boundary requirement. -/
def spec_first_digit_run (s : String) : Option Nat :=
  match s.data.dropWhile (fun c => !c.isDigit) with
  | [] => none
  | c :: cs => some (digitsToNat (c :: cs.takeWhile Char.isDigit))

/-- Embedding of Python `'```' in content` (fixtex.py line 313). -/
def containsFence (s : String) : Bool :=
  py_in (("```").data) s.data

/-- Whether a line opens or closes a fenced code block:
`line.strip().startswith('```')` (fixtex.py line 319). -/
def isFenceLine (l : String) : Bool :=
  List.isPrefixOf (("```").data) (trimChars l.data)

/-- Embedding of the line loop of `LLMReformatter.reformat` (fixtex.py
lines 315-326): skip lines until the first fence line, collect lines until
the next fence line, stop there. -/
def collect_block : Bool → List String → List String
  | _, [] => []
  | inBlock, l :: ls =>
    if isFenceLine l then
      if inBlock then [] else collect_block true ls
    else if inBlock then l :: collect_block true ls
    else collect_block false ls

/-- Embedding of the post-processing of `LLMReformatter.reformat`
(fixtex.py lines 310-328) applied to the returned message content. -/
def LLMReformatter.reformat_body (content : String) : String :=
  py_strip
    (if containsFence content then joinNl (collect_block false (py_split_lines content))
     else content)

/-- Embedding of `LLMReformatter.reformat` (fixtex.py lines 274-332); the
generation call is an oracle, `none` modelling a failed request. -/
def LLMReformatter.reformat (reply : Option String) : Option String :=
  reply.map LLMReformatter.reformat_body

/-- Embedding of `ScholarScraper._llm_select_best_version` (fixtex.py
lines 163-220).  `versions_info` is the first-10 window shown to the
generator; the parsed index is validated against the full `results` list,
and an invalid or missing index yields the first result. -/
def ScholarScraper.llm_select_best_version (reply : Option String)
    (results : List Candidate) : Option Candidate :=
  let versions_info := results.take 10
  if versions_info.isEmpty then none
  else
    match LLMReformatter.select_best_version reply with
    | some i =>
      match results.get? i with
      | some r => some r
      | none => results.head?
    | none => results.head?

/-- Embedding of `ScholarScraper._select_best_version` (fixtex.py lines
138-161).  `llmConfigured` models `self.llm_reformatter` being set. -/
def ScholarScraper.select_best_version (llmConfigured : Bool)
    (reply : Option String) (results : List Candidate) : Option Candidate :=
  match results with
  | [] => none
  | [r] => some r
  | r0 :: _ :: _ =>
    if llmConfigured then
      match ScholarScraper.llm_select_best_version reply results with
      | some r => some r
      | none => some r0
    else some r0

/-- The per-entry external outcomes consumed by `search_entry` and
`process_bibtex`: every web, generation and parse effect of one loop
iteration, given as data. -/
structure Oracles where
  searchResults : Option (List Candidate)
  hasVersionsLink : Bool
  versionResults : List Candidate
  llmConfigured : Bool
  llmSelectReply : Option String
  fetchCitation : Candidate → Option String
  reformatReply : Option String
  parseResult : String → Option (List Entry)

/-- Embedding of `ScholarScraper.search_entry` (fixtex.py lines 57-118).
An empty query string is falsy in Python, hence rejected like a missing
one; `searchResults = none` models a raised exception, `some []` an empty
result page. -/
def ScholarScraper.search_entry (oc : Oracles) (entry : Entry) : Option String :=
  match ScholarScraper.build_query entry with
  | none => none
  | some q =>
    if q = "" then none
    else
      match oc.searchResults with
      | none => none
      | some [] => none
      | some (first :: _) =>
        let best :=
          if oc.hasVersionsLink then
            ScholarScraper.select_best_version oc.llmConfigured
              oc.llmSelectReply oc.versionResults
          else some first
        match best with
        | none => none
        | some b => oc.fetchCitation b

/-- Modelled from the spec: `ReputationScorer.score` (spec section 4.2).
No rule-based scorer exists in src/fixtex.py (selection is LLM-only with a
first-result fallback); this definition follows the spec's words: lower-case
the candidate text and track the maximum table score over every table entry
whose keyword occurs as a substring, 0 when none occurs. -/
def reputation_score (table : List (String × Nat)) (text : String) : Nat :=
  match table with
  | [] => 0
  | (kw, sc) :: rest =>
    if py_in kw.data (py_lower text) then
      max sc (reputation_score rest text)
    else reputation_score rest text

/-- Modelled from the spec: a candidate's "combined textual signal"
(spec section 4.2) — title, venue info and snippet, joined. -/
def combined_text (c : Candidate) : String :=
  c.title ++ " " ++ c.info ++ " " ++ c.snippet

/-- Modelled from the spec: the rule-based selection of spec section 4.3
step 4 — the candidate with the strictly greatest reputation score, the
first-seen candidate winning ties.  Returns the selected index. -/
def rule_based_select (table : List (String × Nat)) (cands : List Candidate) :
    Option Nat :=
  match cands with
  | [] => none
  | _ :: _ =>
    let scores := cands.map (fun c => reputation_score table (combined_text c))
    some (scores.findIdx (fun s => s == scores.foldl max 0))

/-- Embedding of the body of the per-entry loop of `process_bibtex`
(fixtex.py lines 489-525): search, reformat, re-parse, keep the original
entry on any failure, and overwrite the reformatted record's ID with the
original entry's ID.  Empty strings are falsy in Python, so an empty
citation or an empty reformat result also keeps the original. -/
def process_entry (oc : Oracles) (entry : Entry) : Entry :=
  match ScholarScraper.search_entry oc entry with
  | none => entry
  | some citation =>
    if citation = "" then entry
    else
      match oc.reformatReply with
      | none => entry
      | some reply =>
        let reformatted := LLMReformatter.reformat_body reply
        if reformatted = "" then entry
        else
          match oc.parseResult reformatted with
          | none => entry
          | some [] => entry
          | some (ne :: _) => setField ne ("ID") (getID entry)

/-- Embedding of the loop of `process_bibtex` (fixtex.py lines 488-528):
one output entry appended per input entry, in input order.  `start` is the
position of the first entry of `entries` in the full input collection, so
that `ocs` indexes outcomes by position. -/
def process_entries (ocs : Nat → Oracles) : Nat → List Entry → List Entry
  | _, [] => []
  | start, e :: es => process_entry (ocs start) e :: process_entries ocs (start + 1) es

/-- The startup error message of `process_bibtex` (fixtex.py line 476). -/
def apiKeyErr : String :=
  "OPENROUTER_API_KEY not found in environment or provided as argument"

/-- Embedding of `process_bibtex` (fixtex.py lines 459-533).  `apiKeyArg`
is the explicit argument, `envKey` the environment variable; a missing or
empty key (falsy in Python) aborts the whole run before any entry is
processed (`sys.exit(1)`), modelled as `Except.error`. -/
def process_bibtex (apiKeyArg envKey : Option String) (ocs : Nat → Oracles)
    (entries : List Entry) : Except String (List Entry) :=
  let api_key := match apiKeyArg with
    | some k => some k
    | none => envKey
  if api_key.getD "" = "" then Except.error apiKeyErr
  else Except.ok (process_entries ocs 0 entries)

/-- An entry-scoped failure of some pipeline stage, in the sense of spec
section 7: the search chain produced no usable citation, the reformat call
failed or produced falsy text, or the re-parse yielded no record. -/
def entry_failed (oc : Oracles) (entry : Entry) : Bool :=
  match ScholarScraper.search_entry oc entry with
  | none => true
  | some citation =>
    citation == "" ||
    (match oc.reformatReply with
     | none => true
     | some reply =>
       LLMReformatter.reformat_body reply == "" ||
       (match oc.parseResult (LLMReformatter.reformat_body reply) with
        | none => true
        | some [] => true
        | some (_ :: _) => false))

/-- A candidate whose combined text mentions only a preprint server. -/
def cArxiv : Candidate :=
  ⟨"A survey", "arxiv preprint 2020", ""⟩

/-- A candidate whose combined text mentions a peer-reviewed publisher. -/
def cIeee : Candidate :=
  ⟨"A survey", "ieee transactions 2020", ""⟩

/-- A small reputation table in the spirit of the spec's example
(spec section 8): IEEE scores 100, arXiv scores 50. -/
def demo_table : List (String × Nat) :=
  [("ieee", 100), ("arxiv", 50)]

/-- If no line of the tail is a fence line, the collecting loop that is
still outside a block returns nothing. -/
theorem collect_block_none (ls : List String)
    (h : ∀ l ∈ ls, isFenceLine l = false) : collect_block false ls = [] := by
  induction ls with
  | nil => rfl
  | cons l ls ih =>
    have hl : isFenceLine l = false := h l (List.mem_cons_self l ls)
    simp only [collect_block, hl, Bool.false_eq_true, if_false]
    exact ih (fun x hx => h x (List.mem_cons_of_mem l hx))

/-- Lines before the opening fence are discarded. -/
theorem collect_block_skip (pre rest : List String)
    (h : ∀ l ∈ pre, isFenceLine l = false) :
    collect_block false (pre ++ rest) = collect_block false rest := by
  induction pre with
  | nil => rfl
  | cons l ls ih =>
    have hl : isFenceLine l = false := h l (List.mem_cons_self l ls)
    simp only [List.cons_append, collect_block, hl, Bool.false_eq_true, if_false]
    exact ih (fun x hx => h x (List.mem_cons_of_mem l hx))

/-- Non-fence lines inside a block are all collected. -/
theorem collect_block_take (mid rest : List String)
    (h : ∀ l ∈ mid, isFenceLine l = false) :
    collect_block true (mid ++ rest) = mid ++ collect_block true rest := by
  induction mid with
  | nil => rfl
  | cons l ls ih =>
    have hl : isFenceLine l = false := h l (List.mem_cons_self l ls)
    simp only [List.cons_append, collect_block, hl, Bool.false_eq_true, if_false]
    exact congrArg (l :: ·) (ih (fun x hx => h x (List.mem_cons_of_mem l hx)))

/-- Claim C10: a response that contains the delimiter three-backquote
sequence somewhere, but in which no line begins (after stripping) with it,
is post-processed to the empty string — the whole response is discarded. -/
theorem C10_midline_fence (content : String)
    (hf : containsFence content = true)
    (hl : ∀ l ∈ py_split_lines content, isFenceLine l = false) :
    LLMReformatter.reformat_body content = "" := by
  unfold LLMReformatter.reformat_body
  rw [hf]
  simp only [if_true]
  rw [collect_block_none _ hl]
  rfl

/-- Claim C10 witness: the concrete response `a```b```c` contains the
delimiter sequence mid-line only and is discarded entirely. -/
theorem C10_witness : LLMReformatter.reformat_body ("a```b```c") = "" :=
  C10_midline_fence ("a```b```c") (by decide) (by decide)

/-- Claim C7 (amended): a response with no three-backquote sequence is
returned whole, stripped; a response whose lines decompose as
`pre ++ d1 :: mid ++ d2 :: post` with `d1`, `d2` the only fence lines in
`pre ++ d1 :: mid ++ [d2]` yields the lines strictly between the first
fence line and the next, joined and stripped.  (A response that contains
the sequence only mid-line yields the empty string instead — the
correction forced by the counterexample.) -/
theorem C7_fence_extraction (content : String) :
    (containsFence content = false → LLMReformatter.reformat_body content = py_strip content)
    ∧ (∀ pre mid post d1 d2,
        containsFence content = true →
        py_split_lines content = pre ++ d1 :: (mid ++ d2 :: post) →
        (∀ l ∈ pre, isFenceLine l = false) →
        (∀ l ∈ mid, isFenceLine l = false) →
        isFenceLine d1 = true →
        isFenceLine d2 = true →
        LLMReformatter.reformat_body content = py_strip (joinNl mid)) := by
  constructor
  · intro hf
    unfold LLMReformatter.reformat_body
    rw [hf]
    simp only [Bool.false_eq_true, if_false]
  · intro pre mid post d1 d2 hf hsplit hpre hmid hd1 hd2
    unfold LLMReformatter.reformat_body
    rw [hf]
    simp only [if_true]
    rw [hsplit, collect_block_skip pre _ hpre]
    show py_strip (joinNl (collect_block false (d1 :: (mid ++ d2 :: post)))) = _
    rw [show collect_block false (d1 :: (mid ++ d2 :: post))
          = collect_block true (mid ++ d2 :: post) by
        simp only [collect_block, hd1, if_true, Bool.false_eq_true, if_false]]
    rw [collect_block_take mid _ hmid]
    rw [show collect_block true (d2 :: post) = [] by
        simp only [collect_block, hd2, if_true]]
    rw [List.append_nil]

/-- Claim C7 witness: a fenceless response round-trips stripped, and a
single properly fenced block yields its inner content stripped. -/
theorem C7_witness :
    LLMReformatter.reformat_body (" hi there ") = py_strip (" hi there ")
    ∧ LLMReformatter.reformat_body ("x\n```bibtex\n@art\n```\ny")
        = py_strip (joinNl (["@art"])) :=
  ⟨(C7_fence_extraction (" hi there ")).1 (by decide),
   (C7_fence_extraction ("x\n```bibtex\n@art\n```\ny")).2 (["x"]) (["@art"]) (["y"])
     ("```bibtex") ("```") (by decide) (by decide) (by decide) (by decide)
     (by decide) (by decide)⟩

/-- Claim C7 counterexample: the response `a```b```c` contains a fence
delimiter, yet the post-processing returns neither the text strictly
between the first and second delimiter (`b`) nor the whole response
stripped — it returns the empty string. -/
theorem C7_counterexample :
    LLMReformatter.reformat_body ("a```b```c") = ""
    ∧ ("" : String) ≠ ("b")
    ∧ ("" : String) ≠ py_strip ("a```b```c") := by
  refine ⟨by decide, by decide, by decide⟩

/-- Claim C1 counterexample: with two candidates and no generation
capability (and likewise with a failed generation call), the selector
returns the first candidate even though the second one's combined text has
the strictly greatest reputation score — it never computes scores. -/
theorem C1_counterexample :
    ScholarScraper.select_best_version false none ([cArxiv, cIeee]) = some cArxiv
    ∧ ScholarScraper.select_best_version true none ([cArxiv, cIeee]) = some cArxiv
    ∧ reputation_score demo_table (combined_text cArxiv)
        < reputation_score demo_table (combined_text cIeee)
    ∧ rule_based_select demo_table ([cArxiv, cIeee]) = some 1
    ∧ ([cArxiv, cIeee] : List Candidate).get? 1 = some cIeee
    ∧ cArxiv ≠ cIeee := by
  refine ⟨by decide, by decide, by decide, by decide, by decide, by decide⟩

/-- Claim C1 (amended): with two or more candidates, when no generation
capability is configured, or the generation call for selection fails, the
selector returns the first candidate of the list. -/
theorem C1_first_result_fallback (results : List Candidate)
    (h2 : 2 ≤ results.length) :
    ScholarScraper.select_best_version false none results = results.head?
    ∧ ScholarScraper.select_best_version true none results = results.head? := by
  match results with
  | [] => simp at h2
  | [r] => simp at h2
  | r0 :: r1 :: rs =>
    constructor
    · rfl
    · rfl

/-- Claim C1 witness: the fallback theorem applied to the two concrete
candidates. -/
theorem C1_witness :
    2 ≤ ([cArxiv, cIeee] : List Candidate).length
    ∧ (ScholarScraper.select_best_version false none ([cArxiv, cIeee])
         = ([cArxiv, cIeee] : List Candidate).head?
       ∧ ScholarScraper.select_best_version true none ([cArxiv, cIeee])
         = ([cArxiv, cIeee] : List Candidate).head?) :=
  ⟨by decide, C1_first_result_fallback ([cArxiv, cIeee]) (by decide)⟩

/-- Claim C4 counterexample: the response `5` parses to index 5, out of
range for two candidates; the selection does not treat this as a failure
(it does not return `none`) and the caller does not fall back to
rule-based reputation scoring (which would pick index 1, the IEEE
candidate): both return the first candidate. -/
theorem C4_counterexample :
    ScholarScraper.llm_select_best_version (some ("5")) ([cArxiv, cIeee]) = some cArxiv
    ∧ (some cArxiv : Option Candidate) ≠ none
    ∧ ScholarScraper.select_best_version true (some ("5")) ([cArxiv, cIeee]) = some cArxiv
    ∧ rule_based_select demo_table ([cArxiv, cIeee]) = some 1
    ∧ ([cArxiv, cIeee] : List Candidate).get? 1 = some cIeee
    ∧ cIeee ≠ cArxiv := by
  refine ⟨by decide, by decide, by decide, by decide, by decide, by decide⟩

/-- Claim C4 (amended): a generation response whose parsed index lies
outside the candidate range is rejected without a crash and without an
out-of-bounds selection — the selection returns the first result (an
in-bounds candidate), not a failure, and no rule-based scoring happens. -/
theorem C4_out_of_range_first (r0 : Candidate) (rs : List Candidate)
    (content : String) (i : Nat)
    (hp : LLMReformatter.parse_index content = some i)
    (hi : (r0 :: rs).length ≤ i) :
    ScholarScraper.llm_select_best_version (some content) (r0 :: rs) = some r0
    ∧ r0 ∈ (r0 :: rs) := by
  constructor
  · unfold ScholarScraper.llm_select_best_version
    have hget : (r0 :: rs).get? i = none := List.get?_eq_none.mpr hi
    simp only [LLMReformatter.select_best_version, hp, hget, List.take,
      List.isEmpty_cons, Bool.false_eq_true, if_false, List.head?]
  · exact List.mem_cons_self r0 rs

/-- Claim C4 witness: the response `Version 7` parses to 7, out of range
for the two concrete candidates, and the first candidate is returned. -/
theorem C4_witness :
    LLMReformatter.parse_index ("Version 7") = some 7
    ∧ ([cArxiv, cIeee] : List Candidate).length ≤ 7
    ∧ (ScholarScraper.llm_select_best_version (some ("Version 7")) ([cArxiv, cIeee])
         = some cArxiv
       ∧ cArxiv ∈ ([cArxiv, cIeee] : List Candidate)) :=
  ⟨by decide, by decide, C4_out_of_range_first cArxiv ([cIeee]) ("Version 7") 7
    (by decide) (by decide)⟩

/-- Claim C9: with more than ten results, the parsed index is validated
against the full result list, not the ten-candidate window shown to the
generator: any index at or past the window but below the list length is
accepted and the corresponding (never-presented) result is returned, via
an in-bounds access. -/
theorem C9_full_list_validation (results : List Candidate) (content : String)
    (i : Nat) (hp : LLMReformatter.parse_index content = some i)
    (h10 : 10 ≤ i) (hlt : i < results.length) :
    (results.take 10).length ≤ i
    ∧ ∃ h : i < results.length,
        ScholarScraper.llm_select_best_version (some content) results
          = some (results.get ⟨i, h⟩) := by
  constructor
  · exact le_trans (List.length_take_le 10 results) h10
  · refine ⟨hlt, ?_⟩
    unfold ScholarScraper.llm_select_best_version
    have hne : results ≠ [] := by
      intro h
      rw [h] at hlt
      simp at hlt
    have hemp : (results.take 10).isEmpty = false := by
      match results, hne with
      | r :: rs, _ => rfl
    simp only [hemp, LLMReformatter.select_best_version, hp, Bool.false_eq_true,
      if_false]
    rw [List.get?_eq_get hlt]

/-- Twelve search results, more than the ten-candidate prompt window. -/
def twelve_results : List Candidate :=
  List.replicate 12 cArxiv ++ [cIeee]

/-- Claim C9 witness: the response `11` selects the twelfth result of a
thirteen-element list even though only the first ten were presented. -/
theorem C9_witness :
    LLMReformatter.parse_index ("11") = some 11
    ∧ 10 ≤ 11
    ∧ 11 < twelve_results.length
    ∧ ((twelve_results.take 10).length ≤ 11
       ∧ ∃ h : 11 < twelve_results.length,
           ScholarScraper.llm_select_best_version (some ("11")) twelve_results
             = some (twelve_results.get ⟨11, h⟩)) :=
  ⟨by decide, by decide, by decide,
   C9_full_list_validation twelve_results ("11") 11 (by decide) (by decide)
     (by decide)⟩

/-- The concrete entry of claim C6's counterexample: a present but empty
title next to usable author and year fields. -/
def entry_empty_title : Entry :=
  [("title", ""), ("author", "Smith"), ("year", "2020")]

/-- Claim C6 counterexample: with a present but empty title the query
builder returns the empty string — priority is decided by presence of the
title key, not by non-emptiness, so the author/year fallback claimed by
the spec is not taken. -/
theorem C6_counterexample :
    getField entry_empty_title ("title") = some ""
    ∧ getField entry_empty_title ("author") = some ("Smith")
    ∧ getField entry_empty_title ("year") = some ("2020")
    ∧ ScholarScraper.build_query entry_empty_title = some ""
    ∧ (some "" : Option String) ≠ some ("Smith 2020") := by
  refine ⟨by decide, by decide, by decide, by decide, by decide⟩

/-- Claim C6 (amended): the query builder returns the title stripped of
enclosing braces whenever the entry has a title field at all (empty or
not); only when the title key is absent does it join the first author
(the part of the author field before the first ` and `) with the year;
it returns none exactly when none of the three fields is present. -/
theorem C6_build_query_cases (entry : Entry) :
    (∀ t, getField entry ("title") = some t →
       ScholarScraper.build_query entry = some (strip_braces t))
    ∧ (getField entry ("title") = none →
       getField entry ("author") = none →
       getField entry ("year") = none →
       ScholarScraper.build_query entry = none)
    ∧ (∀ a y, getField entry ("title") = none →
       getField entry ("author") = some a →
       getField entry ("year") = some y →
       ScholarScraper.build_query entry
         = some ((⟨firstSplit ((" and ").data) a.data⟩ : String) ++ " " ++ y))
    ∧ (∀ a, getField entry ("title") = none →
       getField entry ("author") = some a →
       getField entry ("year") = none →
       ScholarScraper.build_query entry
         = some (⟨firstSplit ((" and ").data) a.data⟩ : String))
    ∧ (∀ y, getField entry ("title") = none →
       getField entry ("author") = none →
       getField entry ("year") = some y →
       ScholarScraper.build_query entry = some y) := by
  refine ⟨?_, ?_, ?_, ?_, ?_⟩
  · intro t ht
    unfold ScholarScraper.build_query
    rw [ht]
  · intro ht ha hy
    unfold ScholarScraper.build_query
    rw [ht, ha, hy]
    rfl
  · intro a y ht ha hy
    unfold ScholarScraper.build_query
    rw [ht, ha, hy]
    rfl
  · intro a ht ha hy
    unfold ScholarScraper.build_query
    rw [ht, ha, hy]
    rfl
  · intro y ht ha hy
    unfold ScholarScraper.build_query
    rw [ht, ha, hy]
    rfl

/-- Claim C6 witness: the case theorem applied to concrete entries for
the title, author-plus-year, and no-field cases. -/
theorem C6_witness :
    ScholarScraper.build_query ([("title", "\x7bDeep Learning\x7d")])
      = some (strip_braces ("\x7bDeep Learning\x7d"))
    ∧ ScholarScraper.build_query ([("author", "A B and C"), ("year", "1999")])
        = some ((⟨firstSplit ((" and ").data) ("A B and C").data⟩ : String) ++ " " ++ "1999")
    ∧ ScholarScraper.build_query ([("note", "x")]) = none :=
  ⟨(C6_build_query_cases _).1 ("\x7bDeep Learning\x7d") (by decide),
   (C6_build_query_cases _).2.2.1 ("A B and C") ("1999") (by decide) (by decide)
     (by decide),
   (C6_build_query_cases _).2.1 (by decide) (by decide) (by decide)⟩

/-- The score dominates the table value of every matching keyword. -/
theorem reputation_score_ge (table : List (String × Nat)) (text : String)
    (kw : String) (sc : Nat) (hmem : (kw, sc) ∈ table)
    (hocc : py_in kw.data (py_lower text) = true) :
    sc ≤ reputation_score table text := by
  induction table with
  | nil => cases hmem
  | cons p rest ih =>
    match p, hmem with
    | (k2, s2), hmem =>
      rcases List.mem_cons.mp hmem with heq | hmem2
      · cases heq
        simp only [reputation_score, hocc, if_true]
        exact Nat.le_max_left sc _
      · have hrec := ih hmem2
        unfold reputation_score
        by_cases h2 : py_in k2.data (py_lower text) = true
        · simp only [h2, if_true]
          exact le_trans hrec (Nat.le_max_right s2 _)
        · simp only [eq_false_of_ne_true h2, Bool.false_eq_true, if_false]
          exact hrec

/-- When no keyword of the table matches, the score is zero. -/
theorem reputation_score_zero (table : List (String × Nat)) (text : String)
    (h : ∀ kw sc, (kw, sc) ∈ table → py_in kw.data (py_lower text) = false) :
    reputation_score table text = 0 := by
  induction table with
  | nil => rfl
  | cons p rest ih =>
    match p with
    | (k2, s2) =>
      have hk2 : py_in k2.data (py_lower text) = false :=
        h k2 s2 (List.mem_cons_self _ _)
      simp only [reputation_score, hk2, Bool.false_eq_true, if_false]
      exact ih (fun kw sc hm => h kw sc (List.mem_cons_of_mem _ hm))

/-- The score is zero or the table value of some matching keyword. -/
theorem reputation_score_attained (table : List (String × Nat)) (text : String) :
    reputation_score table text = 0
    ∨ ∃ kw sc, (kw, sc) ∈ table ∧ py_in kw.data (py_lower text) = true
        ∧ reputation_score table text = sc := by
  induction table with
  | nil => exact Or.inl rfl
  | cons p rest ih =>
    match p with
    | (k2, s2) =>
      by_cases h2 : py_in k2.data (py_lower text) = true
      · rcases Nat.le_total s2 (reputation_score rest text) with hle | hle
        · have hmax : reputation_score ((k2, s2) :: rest) text
              = reputation_score rest text := by
            simp only [reputation_score, h2, if_true]
            exact Nat.max_eq_right hle
          rcases ih with h0 | ⟨kw, sc, hmem, hocc, heq⟩
          · rw [hmax, h0]
            have hs2 : s2 = 0 := Nat.le_zero.mp (h0 ▸ hle)
            exact Or.inr ⟨k2, s2, List.mem_cons_self _ _, h2, hs2.symm⟩
          · exact Or.inr ⟨kw, sc, List.mem_cons_of_mem _ hmem, hocc, hmax ▸ heq⟩
        · have hmax : reputation_score ((k2, s2) :: rest) text = s2 := by
            simp only [reputation_score, h2, if_true]
            exact Nat.max_eq_left hle
          exact Or.inr ⟨k2, s2, List.mem_cons_self _ _, h2, hmax⟩
      · have hstep : reputation_score ((k2, s2) :: rest) text
            = reputation_score rest text := by
          simp only [reputation_score, eq_false_of_ne_true h2, Bool.false_eq_true,
            if_false]
        rcases ih with h0 | ⟨kw, sc, hmem, hocc, heq⟩
        · exact Or.inl (hstep ▸ h0)
        · exact Or.inr ⟨kw, sc, List.mem_cons_of_mem _ hmem, hocc, hstep ▸ heq⟩

/-- Claim C2: the reputation scorer is a function of the candidate text
alone (hence deterministic and order-independent), non-negative by type;
it dominates the table value of every keyword occurring (case-insensitively)
as a substring, is zero when no keyword occurs, and always equals zero or
the value of some occurring keyword — the maximum of the matching values. -/
theorem C2_score_characterization (table : List (String × Nat)) (text : String) :
    (∀ kw sc, (kw, sc) ∈ table → py_in kw.data (py_lower text) = true →
       sc ≤ reputation_score table text)
    ∧ ((∀ kw sc, (kw, sc) ∈ table → py_in kw.data (py_lower text) = false) →
       reputation_score table text = 0)
    ∧ (reputation_score table text = 0
       ∨ ∃ kw sc, (kw, sc) ∈ table ∧ py_in kw.data (py_lower text) = true
           ∧ reputation_score table text = sc) :=
  ⟨fun kw sc hmem hocc => reputation_score_ge table text kw sc hmem hocc,
   fun h => reputation_score_zero table text h,
   reputation_score_attained table text⟩

/-- Claim C2 witness: the characterization applied to the concrete table
and a concrete mixed-case text containing the keyword `ieee`. -/
theorem C2_witness :
    100 ≤ reputation_score demo_table ("IEEE Transactions 2020")
    ∧ reputation_score demo_table ("Nothing known") = 0 :=
  ⟨(C2_score_characterization demo_table ("IEEE Transactions 2020")).1
      ("ieee") 100 (by decide) (by decide),
   (C2_score_characterization demo_table ("Nothing known")).2.1
     (by
       intro kw sc hmem
       fin_cases hmem <;> decide)⟩

/-- Overwriting the ID field makes it the entry's ID. -/
theorem getID_setField (e : Entry) (v : String) :
    getID (setField e ("ID") v) = v := by
  simp [getID, setField, getField, List.find?]

/-- Each processed entry is either the untouched original or a parsed
reformatted record whose ID was overwritten with the original's ID. -/
theorem process_entry_cases (oc : Oracles) (entry : Entry) :
    process_entry oc entry = entry
    ∨ ∃ ne rest s, oc.parseResult s = some (ne :: rest)
        ∧ process_entry oc entry = setField ne ("ID") (getID entry) := by
  unfold process_entry
  cases hs : ScholarScraper.search_entry oc entry with
  | none => exact Or.inl rfl
  | some citation =>
    dsimp only
    by_cases hc : citation = ""
    · rw [if_pos hc]
      exact Or.inl rfl
    · simp only [if_neg hc]
      cases hr : oc.reformatReply with
      | none => exact Or.inl rfl
      | some reply =>
        dsimp only
        by_cases hb : LLMReformatter.reformat_body reply = ""
        · rw [if_pos hb]
          exact Or.inl rfl
        · simp only [if_neg hb]
          cases hp : oc.parseResult (LLMReformatter.reformat_body reply) with
          | none => exact Or.inl rfl
          | some parsed =>
            cases parsed with
            | nil => exact Or.inl rfl
            | cons ne rest =>
              exact Or.inr ⟨ne, rest, LLMReformatter.reformat_body reply, hp, rfl⟩

/-- Processing preserves the entry's identifier. -/
theorem getID_process_entry (oc : Oracles) (entry : Entry) :
    getID (process_entry oc entry) = getID entry := by
  rcases process_entry_cases oc entry with h | ⟨ne, rest, s, hp, h⟩
  · rw [h]
  · rw [h, getID_setField]

/-- The processing loop keeps the collection length. -/
theorem process_entries_length (ocs : Nat → Oracles) (start : Nat)
    (entries : List Entry) :
    (process_entries ocs start entries).length = entries.length := by
  induction entries generalizing start with
  | nil => rfl
  | cons e es ih =>
    simp only [process_entries, List.length_cons, ih]

/-- The `i`-th output of the processing loop is the processed `i`-th
input, with outcomes indexed by absolute position. -/
theorem process_entries_get? (ocs : Nat → Oracles) (start i : Nat)
    (entries : List Entry) :
    (process_entries ocs start entries).get? i
      = (entries.get? i).map (fun e => process_entry (ocs (start + i)) e) := by
  induction entries generalizing start i with
  | nil => rfl
  | cons e es ih =>
    cases i with
    | zero => rfl
    | succ j =>
      simp only [process_entries, List.get?_cons_succ]
      rw [ih (start + 1) j]
      rw [Nat.add_assoc, Nat.add_comm 1 j]

/-- Claim C3: processing returns exactly one output entry per input entry,
in input order; each output is the original entry or the reformatted
record with its ID overwritten by the original's ID (never a hybrid), and
every output carries the corresponding input entry's identifier. -/
theorem C3_length_order_id (ocs : Nat → Oracles) (entries : List Entry) :
    (process_entries ocs 0 entries).length = entries.length
    ∧ ∀ i, i < entries.length →
        ∃ e, entries.get? i = some e
          ∧ ((process_entries ocs 0 entries).get? i = some (process_entry (ocs i) e))
          ∧ ((process_entries ocs 0 entries).get? i = some e
             ∨ ∃ ne rest s, (ocs i).parseResult s = some (ne :: rest)
                 ∧ (process_entries ocs 0 entries).get? i
                     = some (setField ne ("ID") (getID e)))
          ∧ (∃ o, (process_entries ocs 0 entries).get? i = some o
                ∧ getID o = getID e) := by
  refine ⟨process_entries_length ocs 0 entries, ?_⟩
  intro i hi
  have he : entries.get? i = some (entries.get ⟨i, hi⟩) := List.get?_eq_get hi
  set e := entries.get ⟨i, hi⟩ with hedef
  refine ⟨e, he, ?_, ?_, ?_⟩
  · rw [process_entries_get? ocs 0 i entries, he]
    simp
  · rcases process_entry_cases (ocs i) e with h | ⟨ne, rest, s, hp, h⟩
    · left
      rw [process_entries_get? ocs 0 i entries, he]
      simp [h]
    · right
      refine ⟨ne, rest, s, ?_, ?_⟩
      · simpa using hp
      · rw [process_entries_get? ocs 0 i entries, he]
        simp [h]
  · refine ⟨process_entry (ocs i) e, ?_, ?_⟩
    · rw [process_entries_get? ocs 0 i entries, he]
      simp
    · exact getID_process_entry (ocs i) e

/-- An oracle bundle in which the very first stage (the web search)
raises, so every downstream stage is skipped. -/
def ocFail : Oracles :=
  ⟨none, false, [], true, none, fun _ => none, none, fun _ => none⟩

/-- A concrete entry with an ID and a braced title. -/
def entryW : Entry :=
  [("ID", "a1"), ("title", "\x7bDeep Learning\x7d")]

/-- Claim C3 witness: the preservation theorem applied to a one-entry
collection whose search fails, so the original entry is kept. -/
theorem C3_witness :
    (process_entries (fun _ => ocFail) 0 ([entryW])).length
      = ([entryW] : List Entry).length
    ∧ ∃ e, ([entryW] : List Entry).get? 0 = some e
        ∧ ((process_entries (fun _ => ocFail) 0 ([entryW])).get? 0
             = some (process_entry ocFail e))
        ∧ ((process_entries (fun _ => ocFail) 0 ([entryW])).get? 0 = some e
           ∨ ∃ ne rest s, ocFail.parseResult s = some (ne :: rest)
               ∧ (process_entries (fun _ => ocFail) 0 ([entryW])).get? 0
                   = some (setField ne ("ID") (getID e)))
        ∧ (∃ o, (process_entries (fun _ => ocFail) 0 ([entryW])).get? 0 = some o
              ∧ getID o = getID e) :=
  ⟨(C3_length_order_id (fun _ => ocFail) ([entryW])).1,
   (C3_length_order_id (fun _ => ocFail) ([entryW])).2 0 (by decide)⟩

/-- Claim C8: a missing or empty generation credential aborts the whole
run before any entry is processed; with a credential the run returns one
output per input entry; and every entry-scoped stage failure keeps that
entry's original, unmodified value. -/
theorem C8_error_policy :
    (∀ ocs entries, process_bibtex none none ocs entries = Except.error apiKeyErr)
    ∧ (∀ envKey ocs entries,
        process_bibtex (some "") envKey ocs entries = Except.error apiKeyErr)
    ∧ (∀ k envKey ocs entries, k ≠ "" →
        process_bibtex (some k) envKey ocs entries
          = Except.ok (process_entries ocs 0 entries)
        ∧ (process_entries ocs 0 entries).length = entries.length)
    ∧ (∀ oc entry, entry_failed oc entry = true → process_entry oc entry = entry) := by
  refine ⟨fun ocs entries => rfl, fun envKey ocs entries => rfl, ?_, ?_⟩
  · intro k envKey ocs entries hk
    constructor
    · show (if k = "" then Except.error apiKeyErr
            else Except.ok (process_entries ocs 0 entries))
          = Except.ok (process_entries ocs 0 entries)
      rw [if_neg hk]
    · exact process_entries_length ocs 0 entries
  · intro oc entry hfail
    unfold entry_failed at hfail
    unfold process_entry
    cases hs : ScholarScraper.search_entry oc entry with
    | none => rfl
    | some citation =>
      rw [hs] at hfail
      dsimp only at hfail ⊢
      by_cases hc : citation = ""
      · rw [if_pos hc]
      · rw [if_neg hc]
        have hcb : (citation == "") = false := beq_eq_false_iff_ne.mpr hc
        rw [hcb, Bool.false_or] at hfail
        cases hr : oc.reformatReply with
        | none => rfl
        | some reply =>
          rw [hr] at hfail
          dsimp only at hfail ⊢
          by_cases hb : LLMReformatter.reformat_body reply = ""
          · rw [if_pos hb]
          · rw [if_neg hb]
            have hbb : (LLMReformatter.reformat_body reply == "") = false :=
              beq_eq_false_iff_ne.mpr hb
            rw [hbb, Bool.false_or] at hfail
            cases hp : oc.parseResult (LLMReformatter.reformat_body reply) with
            | none => rfl
            | some parsed =>
              rw [hp] at hfail
              cases parsed with
              | nil => rfl
              | cons ne rest => exact absurd hfail (by simp)

/-- Claim C8 witness: the policy theorem applied to concrete runs — a
missing key aborts, a present key processes the single entry, and the
concrete failing oracle keeps the original entry. -/
theorem C8_witness :
    process_bibtex none none (fun _ => ocFail) ([entryW]) = Except.error apiKeyErr
    ∧ (process_bibtex (some ("k")) none (fun _ => ocFail) ([entryW])
         = Except.ok (process_entries (fun _ => ocFail) 0 ([entryW]))
       ∧ (process_entries (fun _ => ocFail) 0 ([entryW])).length
           = ([entryW] : List Entry).length)
    ∧ entry_failed ocFail entryW = true
    ∧ process_entry ocFail entryW = entryW :=
  ⟨C8_error_policy.1 (fun _ => ocFail) ([entryW]),
   C8_error_policy.2.2.1 ("k") none (fun _ => ocFail) ([entryW]) (by decide),
   by decide,
   C8_error_policy.2.2.2 ocFail entryW (by decide)⟩

/-- A digit is a word character. -/
theorem isWordChar_of_digit (d : Char) (h : d.isDigit = true) :
    isWordChar d = true := by
  simp [isWordChar, h]

/-- The head of the dropped suffix fails the predicate. -/
theorem dropWhile_head_false (p : Char → Bool) (l : List Char) (r : Char)
    (rs : List Char) (h : l.dropWhile p = r :: rs) : p r = false := by
  have hnot := List.head?_dropWhile_not p l
  rw [h] at hnot
  exact hnot

/-- Dropping the head shifts the digit run by one. -/
theorem runAt_cons_succ (c : Char) (cs : List Char) (i : Nat) :
    runAt (c :: cs) (i + 1) = runAt cs i := rfl

/-- Dropping the head shifts word-character positions by one. -/
theorem wordAt_cons_succ (c : Char) (cs : List Char) (i : Nat) :
    wordAt (c :: cs) (i + 1) = wordAt cs i := by
  unfold wordAt
  rw [List.get?_cons_succ]

/-- Dropping the head shifts match starts by one, the left-boundary
context becoming the head's word status. -/
theorem matchStart_shift (bnd : Bool) (c : Char) (cs : List Char) (i : Nat) :
    matchStart bnd (c :: cs) (i + 1) = matchStart (!isWordChar c) cs i := by
  unfold matchStart
  rw [List.get?_cons_succ]
  have h2 : (if i + 1 = 0 then bnd else !wordAt (c :: cs) (i + 1 - 1))
      = (if i = 0 then !isWordChar c else !wordAt cs (i - 1)) := by
    cases i with
    | zero => simp [wordAt]
    | succ j =>
      simp only [Nat.succ_ne_zero, if_false, Nat.add_sub_cancel]
      rw [wordAt_cons_succ]
  have h3 : wordAt (c :: cs) (i + 1 + (runAt (c :: cs) (i + 1)).length)
      = wordAt cs (i + (runAt cs i).length) := by
    rw [runAt_cons_succ]
    rw [show i + 1 + (runAt cs i).length = i + (runAt cs i).length + 1 by omega]
    exact wordAt_cons_succ c cs (i + (runAt cs i).length)
  rw [h2, h3]

/-- Peeling one position off the positional first-match search. -/
theorem regexFirstAux_cons (bnd : Bool) (c : Char) (cs : List Char) :
    regexFirstAux bnd (c :: cs)
      = if matchStart bnd (c :: cs) 0 then some 0
        else (regexFirstAux (!isWordChar c) cs).map (fun j => j + 1) := by
  unfold regexFirstAux
  rw [List.length_cons, List.range_succ_eq_map]
  cases h0 : matchStart bnd (c :: cs) 0 with
  | true =>
    rw [List.find?_cons_of_pos _ h0]
    simp
  | false =>
    rw [List.find?_cons_of_neg _ (by simp [h0])]
    simp only [Bool.false_eq_true, if_false]
    rw [List.find?_map]
    have hshift : (matchStart bnd (c :: cs) ∘ Nat.succ)
        = matchStart (!isWordChar c) cs := by
      funext i
      show matchStart bnd (c :: cs) (i + 1) = _
      exact matchStart_shift bnd c cs i
    rw [hshift]

/-- Inside a run, pending digits are appended and returned at the end of
the text. -/
theorem scanNum_run_complete (ds : List Char)
    (hds : ∀ d ∈ ds, d.isDigit = true) :
    ∀ acc, scanNum false (some acc) ds = some (acc ++ ds) := by
  induction ds with
  | nil => intro acc; simp [scanNum]
  | cons d ds ih =>
    intro acc
    have hd : d.isDigit = true := hds d (List.mem_cons_self d ds)
    show scanNum false (some acc) (d :: ds) = _
    rw [show scanNum false (some acc) (d :: ds)
          = scanNum false (some (acc ++ [d])) ds by simp [scanNum, hd]]
    rw [ih (fun x hx => hds x (List.mem_cons_of_mem d hx)) (acc ++ [d])]
    simp

/-- Inside a run, a non-digit terminator either returns the pending run
(non-word terminator) or abandons it (word terminator), continuing after
the terminator with a closed boundary. -/
theorem scanNum_run_stop (ds : List Char) (hds : ∀ d ∈ ds, d.isDigit = true)
    (r : Char) (rs : List Char) (hrd : r.isDigit = false) :
    ∀ acc, scanNum false (some acc) (ds ++ r :: rs)
      = if isWordChar r then scanNum false none rs else some (acc ++ ds) := by
  induction ds with
  | nil =>
    intro acc
    show scanNum false (some acc) (r :: rs) = _
    simp [scanNum, hrd]
  | cons d ds ih =>
    intro acc
    have hd : d.isDigit = true := hds d (List.mem_cons_self d ds)
    show scanNum false (some acc) (d :: (ds ++ r :: rs)) = _
    rw [show scanNum false (some acc) (d :: (ds ++ r :: rs))
          = scanNum false (some (acc ++ [d])) (ds ++ r :: rs) by
        simp [scanNum, hd]]
    rw [ih (fun x hx => hds x (List.mem_cons_of_mem d hx)) (acc ++ [d])]
    cases isWordChar r <;> simp

/-- With a closed boundary, a block of word characters is skipped whole. -/
theorem scanNum_skip_words (ws : List Char)
    (hws : ∀ w ∈ ws, isWordChar w = true) (rest : List Char) :
    scanNum false none (ws ++ rest) = scanNum false none rest := by
  induction ws with
  | nil => rfl
  | cons w ws ih =>
    have hw : isWordChar w = true := hws w (List.mem_cons_self w ws)
    show scanNum false none (w :: (ws ++ rest)) = _
    rw [show scanNum false none (w :: (ws ++ rest))
          = scanNum (!isWordChar w) none (ws ++ rest) by simp [scanNum]]
    rw [hw]
    exact ih (fun x hx => hws x (List.mem_cons_of_mem w hx))

/-- The one-pass scanner computes exactly the first positional match of
`\b\d+\b`: its result is the digit run at the first position whose left
and right word boundaries hold. -/
theorem scanNum_eq_regexFirst (cs : List Char) : ∀ bnd : Bool,
    scanNum bnd none cs = (regexFirstAux bnd cs).map (runAt cs) := by
  induction cs with
  | nil => intro bnd; rfl
  | cons c cs ih =>
    intro bnd
    rw [regexFirstAux_cons]
    by_cases hd : (c.isDigit && bnd) = true
    · have hdb := hd
      simp only [Bool.and_eq_true] at hdb
      obtain ⟨hdig, hbnd⟩ := hdb
      have hscan : scanNum bnd none (c :: cs) = scanNum false (some [c]) cs := by
        simp [scanNum, hd]
      have hsplit : cs.takeWhile Char.isDigit ++ cs.dropWhile Char.isDigit = cs :=
        List.takeWhile_append_dropWhile Char.isDigit cs
      set ds := cs.takeWhile Char.isDigit with hds_def
      set rest := cs.dropWhile Char.isDigit with hrest_def
      have hds : ∀ d ∈ ds, d.isDigit = true := fun d hdm => List.mem_takeWhile_imp hdm
      have hrun0 : runAt (c :: cs) 0 = c :: ds := by
        unfold runAt
        rw [List.drop_zero, List.takeWhile_cons, if_pos hdig]
      have hwend : wordAt (c :: cs) (0 + (runAt (c :: cs) 0).length)
          = wordAt rest 0 := by
        rw [hrun0]
        rw [show 0 + (c :: ds).length = ds.length + 1 by
          rw [List.length_cons]; omega]
        rw [wordAt_cons_succ]
        unfold wordAt
        conv_lhs => rw [← hsplit]
        rw [List.get?_append_right (le_refl ds.length)]
        rw [Nat.sub_self]
      have hms0 : matchStart bnd (c :: cs) 0 = !wordAt rest 0 := by
        unfold matchStart
        rw [hwend]
        simp [hdig, hbnd]
      cases hr : rest with
      | nil =>
        have hms : matchStart bnd (c :: cs) 0 = true := by
          rw [hms0, hr]
          rfl
        rw [if_pos hms, hscan]
        have hlhs : scanNum false (some [c]) cs = some ([c] ++ ds) := by
          conv_lhs => rw [← hsplit, hr, List.append_nil]
          exact scanNum_run_complete ds hds [c]
        rw [hlhs]
        simp [hrun0]
      | cons r rs =>
        have hrd : r.isDigit = false :=
          dropWhile_head_false Char.isDigit cs r rs (hrest_def.symm.trans hr)
        by_cases hw : isWordChar r = true
        · have hms : matchStart bnd (c :: cs) 0 = false := by
            rw [hms0, hr]
            simp [wordAt, hw]
          rw [if_neg (by simp [hms])]
          rw [hscan]
          have hlhs : scanNum false (some [c]) cs = scanNum false none rs := by
            conv_lhs => rw [← hsplit, hr]
            rw [scanNum_run_stop ds hds r rs hrd [c], if_pos hw]
          rw [hlhs]
          have hwc : (!isWordChar c) = false := by
            rw [isWordChar_of_digit c hdig]
            rfl
          rw [hwc, Option.map_map]
          have hcomp : (runAt (c :: cs) ∘ fun j => j + 1) = runAt cs := by
            funext j
            exact runAt_cons_succ c cs j
          rw [hcomp, ← ih false]
          conv_rhs => rw [← hsplit, hr]
          rw [scanNum_skip_words ds (fun d hdm => isWordChar_of_digit d (hds d hdm))
            (r :: rs)]
          rw [show scanNum false none (r :: rs) = scanNum (!isWordChar r) none rs by
            simp [scanNum, hrd]]
          rw [hw]
          rfl
        · have hwr : isWordChar r = false := eq_false_of_ne_true hw
          have hms : matchStart bnd (c :: cs) 0 = true := by
            rw [hms0, hr]
            simp [wordAt, hwr]
          rw [if_pos hms, hscan]
          have hlhs : scanNum false (some [c]) cs = some ([c] ++ ds) := by
            conv_lhs => rw [← hsplit, hr]
            rw [scanNum_run_stop ds hds r rs hrd [c], if_neg (by simp [hwr])]
          rw [hlhs]
          simp [hrun0]
    · have hdb : (c.isDigit && bnd) = false := eq_false_of_ne_true hd
      have hms : matchStart bnd (c :: cs) 0 = false := by
        cases hcd : c.isDigit with
        | false => simp [matchStart, hcd]
        | true =>
          have hbf : bnd = false := by
            cases hbb : bnd
            · rfl
            · rw [hcd, hbb] at hdb
              simp at hdb
          simp [matchStart, hcd, hbf]
      rw [if_neg (by simp [hms])]
      have hstep : scanNum bnd none (c :: cs) = scanNum (!isWordChar c) none cs := by
        simp [scanNum, hdb]
      rw [hstep, ih (!isWordChar c), Option.map_map]
      have hcomp : (runAt (c :: cs) ∘ fun j => j + 1) = runAt cs := by
        funext j
        exact runAt_cons_succ c cs j
      rw [hcomp]

/-- Claim C5 counterexample: the parser is not "the first run of decimal
digits found anywhere": on `abc123` it returns none although the text
contains the digit run 123, and on `x1 2` it returns 2, skipping the
earlier run 1 whose right neighbour is a letter context. -/
theorem C5_counterexample :
    LLMReformatter.select_best_version (some ("abc123")) = none
    ∧ spec_first_digit_run ("abc123") = some 123
    ∧ (none : Option Nat) ≠ some 123
    ∧ LLMReformatter.select_best_version (some ("x1 2")) = some 2
    ∧ spec_first_digit_run ("x1 2") = some 1
    ∧ (some 2 : Option Nat) ≠ some 1 := by
  refine ⟨by decide, by decide, by decide, by decide, by decide, by decide⟩

/-- Claim C5 (amended): the index parser returns the decimal value of the
first word-boundary-delimited run of digits of the stripped response —
the first maximal digit run adjacent to no letter, digit or underscore —
and none when no such run exists (in particular when there are no digits
at all). -/
theorem C5_regex_parse (reply : String) :
    LLMReformatter.select_best_version (some reply)
      = (regexFirstRun (trimChars reply.data)).map digitsToNat := by
  show LLMReformatter.parse_index reply = _
  unfold LLMReformatter.parse_index regexFirstRun
  rw [scanNum_eq_regexFirst (trimChars reply.data) true]
